import Mathlib

/-!
Shallow embedding of the goterm terminal library core (color model,
screen buffer, renderer), translated from the Go source, with theorems
checking the natural-language specification against it.

Go `uint8` values are modelled as `Nat` (all arithmetic below is shown to
stay inside `[0,255]`, so no wraparound occurs in the source either);
Go `int` coordinates are modelled as `Int`; Go slices as `List`.
-/

namespace Goterm

/-- ColorMode represents the color capability mode (color.go). -/
inductive ColorMode where
  | ColorModeDefault
  | ColorMode16
  | ColorMode256
  | ColorModeTrueColor
deriving DecidableEq, Repr

open ColorMode

/-- Color represents a terminal color with support for multiple modes
(color.go).  `r,g,b` are RGB values for truecolor, `index` the palette
index for 16/256-color modes; Go `uint8` fields become `Nat`. -/
structure Color where
  mode : ColorMode
  r : Nat
  g : Nat
  b : Nat
  index : Nat
deriving DecidableEq, Repr

/-- ColorDefault returns the terminal's default color (zero struct in Go). -/
def ColorDefault : Color := ⟨ColorModeDefault, 0, 0, 0, 0⟩

/-- ColorRGB creates a true color (24-bit RGB). -/
def ColorRGB (r g b : Nat) : Color := ⟨ColorModeTrueColor, r, g, b, 0⟩

/-- ColorIndex creates an indexed color (0-255): mode is ColorMode16 when
`index < 16`, else ColorMode256. -/
def ColorIndex (index : Nat) : Color :=
  { mode := if index < 16 then ColorMode16 else ColorMode256
    r := 0, g := 0, b := 0, index := index }

def ColorBlack   : Color := ColorIndex 0
def ColorRed     : Color := ColorIndex 1
def ColorGreen   : Color := ColorIndex 2
def ColorYellow  : Color := ColorIndex 3
def ColorBlue    : Color := ColorIndex 4
def ColorMagenta : Color := ColorIndex 5
def ColorCyan    : Color := ColorIndex 6
def ColorWhite   : Color := ColorIndex 7

/-- To256 converts an RGB color to the nearest 256-color palette index
(color.go): identity unless truecolor; otherwise quantizes each channel
with `(component*6)/256` and forms `16 + 36r + 6g + b`. -/
def Color.To256 (c : Color) : Color :=
  if c.mode ≠ ColorModeTrueColor then c
  else
    let r := (c.r * 6) / 256
    let g := (c.g * 6) / 256
    let b := (c.b * 6) / 256
    ColorIndex (16 + 36 * r + 6 * g + b)

/-- To16 converts a color to the nearest ANSI 16-color (color.go):
identity if already 16-mode; truecolor is first reduced via To256;
grayscale-ramp indices (≥232) map to black below 244, else white;
cube indices map via `index % 8`. -/
def Color.To16 (c : Color) : Color :=
  if c.mode = ColorMode16 then c
  else
    let col := if c.mode = ColorModeTrueColor then c.To256 else c
    let idx := col.index
    if idx < 16 then col
    else if idx ≥ 232 then
      if idx < 244 then ColorBlack else ColorWhite
    else
      ColorIndex (idx % 8)

/-- ansiCode returns the ANSI escape sequence for this color as foreground
(`fg = true`) or background (color.go).  `fmt.Sprintf("\x1b[%dm", n)` is
`"\x1b[" ++ toString n ++ "m"`. -/
def Color.ansiCode (c : Color) (fg : Bool) : String :=
  match c.mode with
  | ColorModeDefault =>
      if fg then "\x1b[39m" else "\x1b[49m"
  | ColorMode16 =>
      if fg then
        if c.index < 8 then "\x1b[" ++ toString (30 + c.index) ++ "m"
        else "\x1b[" ++ toString (90 + c.index - 8) ++ "m"
      else
        if c.index < 8 then "\x1b[" ++ toString (40 + c.index) ++ "m"
        else "\x1b[" ++ toString (100 + c.index - 8) ++ "m"
  | ColorMode256 =>
      if fg then "\x1b[38;5;" ++ toString c.index ++ "m"
      else "\x1b[48;5;" ++ toString c.index ++ "m"
  | ColorModeTrueColor =>
      if fg then
        "\x1b[38;2;" ++ toString c.r ++ ";" ++ toString c.g ++ ";" ++ toString c.b ++ "m"
      else
        "\x1b[48;2;" ++ toString c.r ++ ";" ++ toString c.g ++ ";" ++ toString c.b ++ "m"

/-- The mode/index coherence invariant stated by the spec's data model:
16-color mode carries an index in [0,15]; 256-color mode an index in
[16,255]. -/
def Coherent (c : Color) : Prop :=
  (c.mode = ColorMode16 → c.index < 16) ∧
  (c.mode = ColorMode256 → 16 ≤ c.index ∧ c.index ≤ 255)

instance (c : Color) : Decidable (Coherent c) := by
  unfold Coherent; infer_instance

/-- Byte-range side condition on truecolor channels (Go stores them in
`uint8`, so every reachable color satisfies it). -/
def ByteRGB (c : Color) : Prop := c.r < 256 ∧ c.g < 256 ∧ c.b < 256

instance (c : Color) : Decidable (ByteRGB c) := by
  unfold ByteRGB; infer_instance

/-- Style is a bitmask over 9 flags (constants from the API contract:
StyleNone = 0, StyleBold = 1<<0, ..., StyleStrikethrough = 1<<8);
Go's integer bitmask type becomes `Nat`. -/
abbrev Style := Nat

def StyleNone : Style := 0
def StyleBold : Style := 1
def StyleUnderline : Style := 8

/-- Modelled from the spec: `Style.ansiCode` (the style source file is
absent from src/; only the flag constants appear in the API contract).
Per spec §4.2, code generation concatenates one SGR parameter per active
flag in fixed flag-index order, and `StyleNone` generates the empty
string.  SGR parameters for the 9 flags are 1..9 in flag-index order. -/
def Style.ansiCode (s : Style) : String :=
  String.join ((List.range 9).map (fun i =>
    if Nat.testBit s i then "\x1b[" ++ toString (i + 1) ++ "m" else ""))

/-- Cell represents a single character cell (cell.go). -/
structure Cell where
  Ch : Char
  Fg : Color
  Bg : Color
  Style : Goterm.Style
deriving DecidableEq, Repr

/-- NewCell creates a new cell with the specified attributes (cell.go). -/
def NewCell (ch : Char) (fg bg : Color) (style : Style) : Cell :=
  ⟨ch, fg, bg, style⟩

/-- The default cell: space, default colors, no style. -/
def defaultCell : Cell := NewCell ' ' ColorDefault ColorDefault StyleNone

/-- Equal checks if two cells are identical, field-wise (cell.go). -/
def Cell.Equal (c other : Cell) : Bool :=
  c.Ch == other.Ch && c.Fg == other.Fg && c.Bg == other.Bg &&
    c.Style == other.Style

/-- Screen buffer state (screen.go): dimensions plus a flat row-major
cell array of length `width*height`.  The terminal-session fields (fd,
oldState, out) carry no buffer state and are omitted; the output sink is
modelled at the `Show` call (see `runWrites`). -/
structure Screen where
  width : Nat
  height : Nat
  cells : List Cell
deriving DecidableEq, Repr

/-- NewScreen allocates a `width*height` buffer of default cells
(screen.go; the Go constructor panics on non-positive dimensions, so it
is only ever called with positive ones, and `Clear` fills the fresh
array with default cells). -/
def NewScreen (width height : Nat) : Screen :=
  ⟨width, height, List.replicate (width * height) defaultCell⟩

/-- The buffer invariant maintained by every constructor and operation:
positive dimensions and `cells.length = width*height`. -/
def Wf (s : Screen) : Prop :=
  0 < s.width ∧ 0 < s.height ∧ s.cells.length = s.width * s.height

instance (s : Screen) : Decidable (Wf s) := by
  unfold Wf; infer_instance

/-- Size returns the current screen dimensions (screen.go). -/
def Screen.Size (s : Screen) : Nat × Nat := (s.width, s.height)

/-- SetCell sets the cell at the specified position; does nothing if
x, y are out of bounds (screen.go). -/
def Screen.SetCell (s : Screen) (x y : Int) (cell : Cell) : Screen :=
  if x < 0 ∨ y < 0 ∨ (s.width : Int) ≤ x ∨ (s.height : Int) ≤ y then s
  else { s with cells := s.cells.set (y.toNat * s.width + x.toNat) cell }

/-- GetCell returns the cell at the specified position, or a default
empty cell if x, y are out of bounds (screen.go). -/
def Screen.GetCell (s : Screen) (x y : Int) : Cell :=
  if x < 0 ∨ y < 0 ∨ (s.width : Int) ≤ x ∨ (s.height : Int) ≤ y then
    NewCell ' ' ColorDefault ColorDefault StyleNone
  else s.cells.getD (y.toNat * s.width + x.toNat) defaultCell

/-- Clear resets all cells to their default state (screen.go). -/
def Screen.Clear (s : Screen) : Screen :=
  { s with cells := s.cells.map (fun _ => defaultCell) }

/-- DrawText draws text at the specified position (screen.go): one
`SetCell` per rune at increasing x offsets; clipping happens inside
`SetCell`.  The Go loop writes at `x+i` for rune index `i`; here the
recursion advances `x` by one per character, which is the same. -/
def Screen.DrawText : Screen → Int → Int → List Char → Color → Color → Style → Screen
  | s, _, _, [], _, _, _ => s
  | s, x, y, ch :: rest, fg, bg, style =>
      Screen.DrawText (s.SetCell x y (NewCell ch fg bg style)) (x + 1) y rest fg bg style

/-- Inner copy loop of Resize (screen.go): for `x` in `[0, minW)`, write
the old cell at `(x, y)` into the new array at index `y*newW + x`. -/
def copyRow (old : List Cell) (oldW newW y minW : Nat) (acc : List Cell) : List Cell :=
  (List.range minW).foldl
    (fun a x => a.set (y * newW + x) (old.getD (y * oldW + x) defaultCell)) acc

/-- Outer copy loop of Resize (screen.go): rows `y` in `[0, minH)`. -/
def copyRows (old : List Cell) (oldW newW minW minH : Nat) (acc : List Cell) : List Cell :=
  (List.range minH).foldl (fun a y => copyRow old oldW newW y minW a) acc

/-- Resize changes the screen dimensions (screen.go): no-op if either
dimension is ≤ 0; otherwise allocates a new default-filled array, copies
the overlap `[0,min(oldW,newW)) × [0,min(oldH,newH))`, and swaps in the
new array and dimensions. -/
def Screen.Resize (s : Screen) (width height : Int) : Screen :=
  if width ≤ 0 ∨ height ≤ 0 then s
  else
    let w := width.toNat
    let h := height.toNat
    let newCells := List.replicate (w * h) defaultCell
    let minWidth := min s.width w
    let minHeight := min s.height h
    { width := w, height := h,
      cells := copyRows s.cells s.width w minWidth minHeight newCells }

/-- The kind of each write `Show` issues to the output sink, one per
distinct wrapped-error message in screen.go. -/
inductive WriteKind where
  | cursorMove
  | resetAttr
  | setFg
  | setBg
  | setStyle
  | writeChar
  | writeNewline
  | finalReset
deriving DecidableEq, Repr

/-- One write to the output sink: its kind and the bytes written. -/
abbrev WriteOp := WriteKind × String

/-- The renderer's tracked state in Show (screen.go): last emitted
fg/bg/style plus the `needsReset` flag. -/
structure ShowSt where
  lastFg : Color
  lastBg : Color
  lastStyle : Goterm.Style
  needsReset : Bool
deriving DecidableEq, Repr

/-- Show's initial tracked state: Go zero values (`var lastFg, lastBg
Color`, `var lastStyle Style`, `needsReset := false`). -/
def initShowSt : ShowSt := ⟨ColorDefault, ColorDefault, StyleNone, false⟩

/-- The cell Show reads at `s.cells[y*s.width+x]` (screen.go). -/
def cellAt (s : Screen) (x y : Nat) : Cell :=
  s.cells.getD (y * s.width + x) defaultCell

/-- The writes Show issues for one cell (screen.go inner loop body):
when the cell's attributes differ from the tracked state (or a reset is
pending), a reset, then fg / bg / style codes when not default, and the
tracked state is updated; the character is always written. -/
def cellOps (cell : Cell) (st : ShowSt) : List WriteOp × ShowSt :=
  if cell.Fg ≠ st.lastFg ∨ cell.Bg ≠ st.lastBg ∨ cell.Style ≠ st.lastStyle ∨
      st.needsReset = true then
    ((WriteKind.resetAttr, "\x1b[0m") ::
      ((if cell.Fg.mode ≠ ColorModeDefault then [(WriteKind.setFg, cell.Fg.ansiCode true)] else []) ++
       (if cell.Bg.mode ≠ ColorModeDefault then [(WriteKind.setBg, cell.Bg.ansiCode false)] else []) ++
       (if cell.Style ≠ StyleNone then [(WriteKind.setStyle, Style.ansiCode cell.Style)] else []) ++
       [(WriteKind.writeChar, String.singleton cell.Ch)]),
     ⟨cell.Fg, cell.Bg, cell.Style, false⟩)
  else
    ([(WriteKind.writeChar, String.singleton cell.Ch)], st)

/-- The writes Show issues for one row of cells, threading the tracked
state left to right (screen.go inner loop). -/
def rowOps : List Cell → ShowSt → List WriteOp × ShowSt
  | [], st => ([], st)
  | c :: cs, st =>
      let p := cellOps c st
      let q := rowOps cs p.2
      (p.1 ++ q.1, q.2)

/-- The writes Show issues for all rows: a `"\r\n"` after each row
except the last (screen.go: `if y < s.height-1`). -/
def rowsOps : List (List Cell) → ShowSt → List WriteOp × ShowSt
  | [], st => ([], st)
  | [r], st => rowOps r st
  | r :: r2 :: rest, st =>
      let p := rowOps r st
      let q := rowsOps (r2 :: rest) p.2
      (p.1 ++ (WriteKind.writeNewline, "\r\n") :: q.1, q.2)

/-- The buffer's rows in row-major order, as Show walks them. -/
def screenRows (s : Screen) : List (List Cell) :=
  (List.range s.height).map (fun y =>
    (List.range s.width).map (fun x => cellAt s x y))

/-- Every write Show issues, in order (screen.go): cursor to home, the
cell walk, the final attribute reset. -/
def showOps (s : Screen) : List WriteOp :=
  (WriteKind.cursorMove, "\x1b[H") ::
    ((rowsOps (screenRows s) initShowSt).1 ++ [(WriteKind.finalReset, "\x1b[0m")])

/-- Concatenation of the bytes of a list of writes. -/
def writeStr : List WriteOp → String
  | [] => ""
  | op :: rest => op.2 ++ writeStr rest

/-- The full byte stream a successful Show writes. -/
def showString (s : Screen) : String := writeStr (showOps s)

/-- The output sink model: the first `fuel` writes succeed and the next
one fails (each Go `fmt.Fprint` either writes its bytes or returns an
error).  Returns the outcome — `Except.error k` where `k` is the kind of
the first failing write, mirroring the wrapped error Show returns — and
the bytes that actually reached the sink. -/
def runWrites : List WriteOp → Nat → Except WriteKind Unit × String
  | [], _ => (Except.ok (), "")
  | op :: _, 0 => (Except.error op.1, "")
  | op :: rest, Nat.succ fuel =>
      let p := runWrites rest fuel
      (p.1, op.2 ++ p.2)

/-- Show renders the buffer to the sink (screen.go).  It holds only the
read lock and assigns to no field of the receiver, so the screen is
returned exactly as it came in; the result is the outcome, the bytes
written, and the (unchanged) buffer. -/
def Screen.Show (s : Screen) (fuel : Nat) : Except WriteKind Unit × String × Screen :=
  let p := runWrites (showOps s) fuel
  (p.1, p.2, s)

/-- A cell's attribute triple (fg, bg, style). -/
def tripleOf (c : Cell) : Color × Color × Goterm.Style := (c.Fg, c.Bg, c.Style)

/-- Follows the claim's words (C2): the attribute block emitted for a
cell whose triple differs from the preceding one — an attribute reset,
then the fg code if fg is not default, the bg code if bg is not default,
and the style code if the style is not none. -/
def specAttr (c : Cell) : String :=
  "\x1b[0m" ++
  (if c.Fg.mode ≠ ColorModeDefault then c.Fg.ansiCode true else "") ++
  (if c.Bg.mode ≠ ColorModeDefault then c.Bg.ansiCode false else "") ++
  (if c.Style ≠ StyleNone then Style.ansiCode c.Style else "")

/-- Follows the claim's words (C2): walk cells left to right; a cell
whose triple equals the preceding cell's triple gets no attribute code,
a differing one gets the attribute block; the character is always
emitted. -/
def specCells : List Cell → Color × Color × Goterm.Style → String
  | [], _ => ""
  | c :: cs, prev =>
      (if tripleOf c ≠ prev then specAttr c else "") ++
        String.singleton c.Ch ++ specCells cs (tripleOf c)

/-- The triple of the last cell of a row, or the incoming one for an
empty row — the triple the next row's first cell is compared against. -/
def lastTriple (cs : List Cell) (prev : Color × Color × Goterm.Style) :
    Color × Color × Goterm.Style :=
  match cs.getLast? with
  | some c => tripleOf c
  | none => prev

/-- Follows the claim's words (C2): rows in order, a carriage-return +
line-feed after each row except the last. -/
def specRowsStr : List (List Cell) → Color × Color × Goterm.Style → String
  | [], _ => ""
  | [r], prev => specCells r prev
  | r :: r2 :: rest, prev =>
      specCells r prev ++ "\r\n" ++ specRowsStr (r2 :: rest) (lastTriple r prev)

/-- Follows the claim's words (C2): cursor-to-origin first, then the
cells in row-major order with the per-cell attribute rule — the first
cell compared against the all-default triple — and one final attribute
reset at the end. -/
def showSpecString (s : Screen) : String :=
  "\x1b[H" ++ specRowsStr (screenRows s) (ColorDefault, ColorDefault, StyleNone) ++ "\x1b[0m"

/-! ## Helper lemmas -/

lemma quant_le_five {n : Nat} (h : n < 256) : n * 6 / 256 ≤ 5 := by
  have h6 : n * 6 < 6 * 256 := by omega
  have := (Nat.div_lt_iff_lt_mul (by decide : 0 < 256)).mpr h6
  omega

lemma ColorIndex_lt {i : Nat} (h : i < 16) :
    ColorIndex i = ⟨ColorMode16, 0, 0, 0, i⟩ := by
  simp [ColorIndex, h]

lemma ColorIndex_ge {i : Nat} (h : 16 ≤ i) :
    ColorIndex i = ⟨ColorMode256, 0, 0, 0, i⟩ := by
  simp [ColorIndex]
  omega

lemma To256_trueColor (r g b : Nat) :
    (ColorRGB r g b).To256 =
      ColorIndex (16 + 36 * (r * 6 / 256) + 6 * (g * 6 / 256) + b * 6 / 256) := by
  simp [Color.To256, ColorRGB]

lemma To256_not_trueColor {c : Color} (h : c.mode ≠ ColorModeTrueColor) :
    c.To256 = c := by
  simp [Color.To256, h]

/-! ## C4 -/

/-- C4: for all byte-range r,g,b, `ColorRGB(r,g,b).To256` equals
`ColorIndex(16 + 36⌊r·6/256⌋ + 6⌊g·6/256⌋ + ⌊b·6/256⌋)`, has 256-color
mode with index in [16,255]; `ColorRGB(255,0,0).To256 = ColorIndex 196`;
and a color that is not truecolor (already indexed or default) is
returned unchanged. -/
theorem to256_correct (r g b : Nat) (hr : r < 256) (hg : g < 256) (hb : b < 256) :
    (ColorRGB r g b).To256 =
      ColorIndex (16 + 36 * (r * 6 / 256) + 6 * (g * 6 / 256) + b * 6 / 256) ∧
    (ColorRGB r g b).To256.mode = ColorMode256 ∧
    16 ≤ (ColorRGB r g b).To256.index ∧ (ColorRGB r g b).To256.index ≤ 255 ∧
    (ColorRGB 255 0 0).To256 = ColorIndex 196 ∧
    (∀ c : Color, c.mode ≠ ColorModeTrueColor → c.To256 = c) := by
  have hq := quant_le_five hr
  have hq2 := quant_le_five hg
  have hq3 := quant_le_five hb
  have h16 : 16 ≤ 16 + 36 * (r * 6 / 256) + 6 * (g * 6 / 256) + b * 6 / 256 := by omega
  have heq := To256_trueColor r g b
  refine ⟨heq, ?_, ?_, ?_, by decide, fun c h => To256_not_trueColor h⟩
  · rw [heq, ColorIndex_ge h16]
  · rw [heq, ColorIndex_ge h16]
    show 16 ≤ 16 + 36 * (r * 6 / 256) + 6 * (g * 6 / 256) + b * 6 / 256
    omega
  · rw [heq, ColorIndex_ge h16]
    show 16 + 36 * (r * 6 / 256) + 6 * (g * 6 / 256) + b * 6 / 256 ≤ 255
    omega

theorem to256_correct_witness :
    (ColorRGB 200 100 50).To256.mode = ColorMode256 :=
  (to256_correct 200 100 50 (by decide) (by decide) (by decide)).2.1

/-! ## C5 -/

lemma to16_rgb_via_to256 (r g b : Nat) :
    (ColorRGB r g b).To16 = ((ColorRGB r g b).To256).To16 := by
  have h16 : 16 ≤ 16 + 36 * (r * 6 / 256) + 6 * (g * 6 / 256) + b * 6 / 256 := by
    omega
  have hc : (ColorRGB r g b).To256 = ⟨ColorMode256, 0, 0, 0,
      16 + 36 * (r * 6 / 256) + 6 * (g * 6 / 256) + b * 6 / 256⟩ := by
    rw [To256_trueColor r g b, ColorIndex_ge h16]
  conv_lhs => rw [Color.To16]
  conv_rhs => rw [Color.To16]
  rw [hc]
  simp [ColorRGB, hc]

/-- C5: for every 256-color index i, `(ColorIndex i).To16` has 16-color
mode and index in [0,15]; it is the identity below 16, maps grayscale
indices ≥232 to black below 244 and white from 244, maps cube indices
16–231 to `i % 8`, and a truecolor input is first reduced via To256 and
then mapped by the same rule. -/
theorem to16_correct (i : Nat) (hi : i < 256) :
    ((ColorIndex i).To16.mode = ColorMode16 ∧ (ColorIndex i).To16.index < 16) ∧
    (i < 16 → (ColorIndex i).To16 = ColorIndex i) ∧
    (232 ≤ i → i < 244 → (ColorIndex i).To16 = ColorBlack) ∧
    (244 ≤ i → (ColorIndex i).To16 = ColorWhite) ∧
    (16 ≤ i → i ≤ 231 → (ColorIndex i).To16 = ColorIndex (i % 8)) ∧
    (∀ r g b : Nat, (ColorRGB r g b).To16 = ((ColorRGB r g b).To256).To16) := by
  by_cases h : i < 16
  · have hceq := ColorIndex_lt h
    have hid : (ColorIndex i).To16 = ColorIndex i := by
      rw [hceq]
      simp [Color.To16]
    refine ⟨?_, fun _ => hid, fun h2 _ => by omega, fun h2 => by omega,
      fun h2 _ => by omega, to16_rgb_via_to256⟩
    rw [hid, hceq]
    exact ⟨rfl, h⟩
  · push_neg at h
    have hceq := ColorIndex_ge h
    have hn16 : ¬ i < 16 := by omega
    by_cases h232 : 232 ≤ i
    · by_cases h244 : i < 244
      · have hval : (ColorIndex i).To16 = ColorBlack := by
          rw [hceq]
          simp [Color.To16, hn16, h232, h244]
        refine ⟨?_, fun h2 => by omega, fun _ _ => hval, fun h2 => by omega,
          fun _ h2 => by omega, to16_rgb_via_to256⟩
        rw [hval]
        exact ⟨by decide, by decide⟩
      · have hval : (ColorIndex i).To16 = ColorWhite := by
          rw [hceq]
          simp [Color.To16, hn16, h232, h244]
        refine ⟨?_, fun h2 => by omega, fun _ h2 => by omega, fun _ => hval,
          fun _ h2 => by omega, to16_rgb_via_to256⟩
        rw [hval]
        exact ⟨by decide, by decide⟩
    · have hval : (ColorIndex i).To16 = ColorIndex (i % 8) := by
        rw [hceq]
        simp [Color.To16, hn16, h232]
      have hmod : i % 8 < 8 := Nat.mod_lt i (by decide)
      refine ⟨?_, fun h2 => by omega, fun h2 _ => by omega, fun h2 => by omega,
        fun _ _ => hval, to16_rgb_via_to256⟩
      rw [hval, ColorIndex_lt (by omega)]
      refine ⟨rfl, ?_⟩
      show i % 8 < 16
      omega

theorem to16_correct_witness :
    (ColorIndex 250).To16.mode = ColorMode16 :=
  ((to16_correct 250 (by decide)).1).1

/-! ## C6 -/

/-- C6: for every color used as foreground (`fg = true`) or background
(`fg = false`), the generated ANSI string matches the byte-exact wire
table: default mode → `ESC[39m` / `ESC[49m`; 16-color with index < 8 →
`ESC[(30+idx)m` / `ESC[(40+idx)m`; 16-color with index 8–15 →
`ESC[(90+idx-8)m` / `ESC[(100+idx-8)m`; 256-color → `ESC[38;5;idx m` /
`ESC[48;5;idx m`; truecolor → `ESC[38;2;r;g;b m` / `ESC[48;2;r;g;b m`. -/
theorem ansiCode_wire_table (c : Color) :
    (c.mode = ColorModeDefault →
       c.ansiCode true = "\x1b[39m" ∧ c.ansiCode false = "\x1b[49m") ∧
    (c.mode = ColorMode16 → c.index < 8 →
       c.ansiCode true = "\x1b[" ++ toString (30 + c.index) ++ "m" ∧
       c.ansiCode false = "\x1b[" ++ toString (40 + c.index) ++ "m") ∧
    (c.mode = ColorMode16 → 8 ≤ c.index → c.index ≤ 15 →
       c.ansiCode true = "\x1b[" ++ toString (90 + c.index - 8) ++ "m" ∧
       c.ansiCode false = "\x1b[" ++ toString (100 + c.index - 8) ++ "m") ∧
    (c.mode = ColorMode256 →
       c.ansiCode true = "\x1b[38;5;" ++ toString c.index ++ "m" ∧
       c.ansiCode false = "\x1b[48;5;" ++ toString c.index ++ "m") ∧
    (c.mode = ColorModeTrueColor →
       c.ansiCode true =
         "\x1b[38;2;" ++ toString c.r ++ ";" ++ toString c.g ++ ";" ++ toString c.b ++ "m" ∧
       c.ansiCode false =
         "\x1b[48;2;" ++ toString c.r ++ ";" ++ toString c.g ++ ";" ++ toString c.b ++ "m") := by
  refine ⟨fun h => ?_, fun h h8 => ?_, fun h h8 h15 => ?_, fun h => ?_, fun h => ?_⟩
  · unfold Color.ansiCode
    rw [h]
    exact ⟨rfl, rfl⟩
  · unfold Color.ansiCode
    rw [h]
    simp [h8]
  · unfold Color.ansiCode
    rw [h]
    simp [Nat.not_lt.mpr h8]
  · unfold Color.ansiCode
    rw [h]
    exact ⟨rfl, rfl⟩
  · unfold Color.ansiCode
    rw [h]
    exact ⟨rfl, rfl⟩

theorem ansiCode_wire_table_witness :
    (ColorIndex 9).ansiCode true =
      "\x1b[" ++ toString (90 + (ColorIndex 9).index - 8) ++ "m" :=
  ((ansiCode_wire_table (ColorIndex 9)).2.2.1 (by decide) (by decide) (by decide)).1

/-! ## C9 -/

/-- C9: every color produced by the public constructors and named
constants satisfies the mode/index coherence invariant (16-color mode →
index in [0,15]; 256-color mode → index in [16,255]), and both
conversions preserve it on every reachable color (truecolor channels are
byte-range, as Go's `uint8` fields guarantee). -/
theorem color_coherence :
    Coherent ColorDefault ∧
    (∀ r g b : Nat, Coherent (ColorRGB r g b)) ∧
    (∀ i : Nat, i < 256 → Coherent (ColorIndex i)) ∧
    (Coherent ColorBlack ∧ Coherent ColorRed ∧ Coherent ColorGreen ∧
     Coherent ColorYellow ∧ Coherent ColorBlue ∧ Coherent ColorMagenta ∧
     Coherent ColorCyan ∧ Coherent ColorWhite) ∧
    (∀ c : Color, Coherent c → ByteRGB c →
       Coherent c.To256 ∧ Coherent c.To16) := by
  refine ⟨by decide, ?_, ?_, by decide, ?_⟩
  · intro r g b
    exact ⟨by simp [ColorRGB, Coherent], by simp [ColorRGB, Coherent]⟩
  · intro i hi
    by_cases h : i < 16
    · rw [ColorIndex_lt h]
      exact ⟨fun _ => h, by simp⟩
    · rw [ColorIndex_ge (by omega)]
      refine ⟨by simp, fun _ => ⟨?_, ?_⟩⟩
      · show 16 ≤ i
        omega
      · show i ≤ 255
        omega
  · intro c hc hb
    obtain ⟨hb1, hb2, hb3⟩ := hb
    have h256 : Coherent c.To256 := by
      by_cases ht : c.mode = ColorModeTrueColor
      · have hq1 := quant_le_five hb1
        have hq2 := quant_le_five hb2
        have hq3 := quant_le_five hb3
        have hto : c.To256 = ColorIndex (16 + 36 * (c.r * 6 / 256) +
            6 * (c.g * 6 / 256) + c.b * 6 / 256) := by
          simp [Color.To256, ht]
        rw [hto, ColorIndex_ge (by omega)]
        refine ⟨fun hcontra => by simp at hcontra, fun _ => ⟨?_, ?_⟩⟩
        · show 16 ≤ 16 + 36 * (c.r * 6 / 256) + 6 * (c.g * 6 / 256) + c.b * 6 / 256
          omega
        · show 16 + 36 * (c.r * 6 / 256) + 6 * (c.g * 6 / 256) + c.b * 6 / 256 ≤ 255
          omega
      · rw [To256_not_trueColor ht]
        exact hc
    refine ⟨h256, ?_⟩
    by_cases hm16 : c.mode = ColorMode16
    · have : c.To16 = c := by
        unfold Color.To16
        rw [if_pos hm16]
      rw [this]
      exact hc
    · have hTo16 : c.To16 =
          (let col := if c.mode = ColorModeTrueColor then c.To256 else c
           if col.index < 16 then col
           else if col.index ≥ 232 then
             if col.index < 244 then ColorBlack else ColorWhite
           else ColorIndex (col.index % 8)) := by
        unfold Color.To16
        rw [if_neg hm16]
      have hcolco : Coherent (if c.mode = ColorModeTrueColor then c.To256 else c) := by
        split_ifs with ht
        · exact h256
        · exact hc
      rw [hTo16]
      show Coherent
        (if (if c.mode = ColorModeTrueColor then c.To256 else c).index < 16 then
           (if c.mode = ColorModeTrueColor then c.To256 else c)
         else if (if c.mode = ColorModeTrueColor then c.To256 else c).index ≥ 232 then
           if (if c.mode = ColorModeTrueColor then c.To256 else c).index < 244 then
             ColorBlack
           else ColorWhite
         else ColorIndex ((if c.mode = ColorModeTrueColor then c.To256 else c).index % 8))
      set col := if c.mode = ColorModeTrueColor then c.To256 else c with hcol
      split_ifs with h1 h2 h3
      · exact hcolco
      · exact (by decide : Coherent ColorBlack)
      · exact (by decide : Coherent ColorWhite)
      · have h8 : col.index % 8 < 8 := Nat.mod_lt _ (by decide)
        rw [ColorIndex_lt (by omega)]
        refine ⟨fun _ => ?_, fun hcontra => by simp at hcontra⟩
        show col.index % 8 < 16
        omega

theorem color_coherence_witness :
    Coherent (ColorIndex 200) ∧ Coherent ((ColorRGB 10 20 30).To256) :=
  ⟨color_coherence.2.2.1 200 (by decide),
   (color_coherence.2.2.2.2 (ColorRGB 10 20 30) (by decide) (by decide)).1⟩

/-! ## Screen-buffer lemmas -/

lemma idx_lt_of_lt {w h x y : Nat} (hx : x < w) (hy : y < h) :
    y * w + x < w * h := by
  have h1 : y * w + x < (y + 1) * w := by
    have hsm : (y + 1) * w = y * w + w := by ring
    omega
  have h2 : (y + 1) * w ≤ h * w := Nat.mul_le_mul_right w (by omega)
  have h3 : h * w = w * h := Nat.mul_comm h w
  omega

/-- Row-major indexing is injective on in-row-range column indices. -/
lemma rowmajor_inj {w x1 y1 x2 y2 : Nat} (hx1 : x1 < w) (hx2 : x2 < w)
    (h : y1 * w + x1 = y2 * w + x2) : y1 = y2 ∧ x1 = x2 := by
  have hy : y1 = y2 := by
    by_contra hne
    rcases Nat.lt_or_ge y1 y2 with hlt | hge
    · have h2 : (y1 + 1) * w ≤ y2 * w := Nat.mul_le_mul_right _ (by omega)
      have hsm : (y1 + 1) * w = y1 * w + w := by ring
      omega
    · have hgt : y2 < y1 := by omega
      have h2 : (y2 + 1) * w ≤ y1 * w := Nat.mul_le_mul_right _ (by omega)
      have hsm : (y2 + 1) * w = y2 * w + w := by ring
      omega
  subst hy
  exact ⟨rfl, by omega⟩

/-- The in-bounds guard used by SetCell and GetCell (screen.go). -/
lemma screen_oob_iff (s : Screen) (x y : Int) :
    (x < 0 ∨ y < 0 ∨ (s.width : Int) ≤ x ∨ (s.height : Int) ≤ y) ↔
      ¬(0 ≤ x ∧ x < (s.width : Int) ∧ 0 ≤ y ∧ y < (s.height : Int)) := by
  omega

lemma SetCell_oob {s : Screen} {x y : Int} (cell : Cell)
    (h : x < 0 ∨ y < 0 ∨ (s.width : Int) ≤ x ∨ (s.height : Int) ≤ y) :
    s.SetCell x y cell = s := by
  unfold Screen.SetCell
  rw [if_pos h]

lemma GetCell_oob {s : Screen} {x y : Int}
    (h : x < 0 ∨ y < 0 ∨ (s.width : Int) ≤ x ∨ (s.height : Int) ≤ y) :
    s.GetCell x y = defaultCell := by
  unfold Screen.GetCell
  rw [if_pos h]
  rfl

lemma SetCell_inb {s : Screen} {x y : Int} (cell : Cell)
    (hx0 : 0 ≤ x) (hxw : x < (s.width : Int)) (hy0 : 0 ≤ y) (hyh : y < (s.height : Int)) :
    s.SetCell x y cell =
      { s with cells := s.cells.set (y.toNat * s.width + x.toNat) cell } := by
  unfold Screen.SetCell
  rw [if_neg (by omega)]

lemma GetCell_inb {s : Screen} {x y : Int}
    (hx0 : 0 ≤ x) (hxw : x < (s.width : Int)) (hy0 : 0 ≤ y) (hyh : y < (s.height : Int)) :
    s.GetCell x y = s.cells.getD (y.toNat * s.width + x.toNat) defaultCell := by
  unfold Screen.GetCell
  rw [if_neg (by omega)]

lemma SetCell_width (s : Screen) (x y : Int) (cell : Cell) :
    (s.SetCell x y cell).width = s.width := by
  unfold Screen.SetCell
  split_ifs <;> rfl

lemma SetCell_height (s : Screen) (x y : Int) (cell : Cell) :
    (s.SetCell x y cell).height = s.height := by
  unfold Screen.SetCell
  split_ifs <;> rfl

lemma SetCell_wf {s : Screen} (hwf : Wf s) (x y : Int) (cell : Cell) :
    Wf (s.SetCell x y cell) := by
  obtain ⟨hw, hh, hl⟩ := hwf
  unfold Screen.SetCell
  split_ifs with h
  · exact ⟨hw, hh, hl⟩
  · exact ⟨hw, hh, by simpa using hl⟩

/-- Writing in range then reading the same coordinate yields the written
cell. -/
lemma GetCell_SetCell_same {s : Screen} (hwf : Wf s) {x y : Int} (cell : Cell)
    (hx0 : 0 ≤ x) (hxw : x < (s.width : Int)) (hy0 : 0 ≤ y) (hyh : y < (s.height : Int)) :
    (s.SetCell x y cell).GetCell x y = cell := by
  obtain ⟨hw, hh, hl⟩ := hwf
  rw [SetCell_inb cell hx0 hxw hy0 hyh]
  have hxw' : x.toNat < s.width := by omega
  have hyh' : y.toNat < s.height := by omega
  have hidx : y.toNat * s.width + x.toNat < s.cells.length := by
    rw [hl]
    exact idx_lt_of_lt hxw' hyh'
  rw [GetCell_inb (s := { s with cells := s.cells.set (y.toNat * s.width + x.toNat) cell })
    hx0 (by simpa using hxw) hy0 (by simpa using hyh)]
  simp [List.getD_eq_getElem?_getD, List.getElem?_set_self', hidx]

/-- Writing anywhere leaves every other coordinate's value unchanged. -/
lemma GetCell_SetCell_other {s : Screen} (hwf : Wf s) {x y a b : Int} (cell : Cell)
    (hne : ¬(a = x ∧ b = y)) :
    (s.SetCell x y cell).GetCell a b = s.GetCell a b := by
  obtain ⟨hw, hh, hl⟩ := hwf
  by_cases hin : 0 ≤ x ∧ x < (s.width : Int) ∧ 0 ≤ y ∧ y < (s.height : Int)
  · obtain ⟨hx0, hxw, hy0, hyh⟩ := hin
    rw [SetCell_inb cell hx0 hxw hy0 hyh]
    by_cases hab : 0 ≤ a ∧ a < (s.width : Int) ∧ 0 ≤ b ∧ b < (s.height : Int)
    · obtain ⟨ha0, haw, hb0, hbh⟩ := hab
      rw [GetCell_inb (s := { s with cells := s.cells.set (y.toNat * s.width + x.toNat) cell })
        ha0 (by simpa using haw) hb0 (by simpa using hbh)]
      rw [GetCell_inb ha0 haw hb0 hbh]
      have hidxne : y.toNat * s.width + x.toNat ≠ b.toNat * s.width + a.toNat := by
        intro hcontra
        have hax : a.toNat < s.width := by omega
        have hxx : x.toNat < s.width := by omega
        obtain ⟨hy2, hx2⟩ := rowmajor_inj hxx hax hcontra
        exact hne ⟨by omega, by omega⟩
      simp [List.getD_eq_getElem?_getD, List.getElem?_set_ne hidxne]
    · have hoob : a < 0 ∨ b < 0 ∨ (s.width : Int) ≤ a ∨ (s.height : Int) ≤ b := by
        omega
      rw [GetCell_oob (s := { s with cells := s.cells.set (y.toNat * s.width + x.toNat) cell })
        (by simpa using hoob)]
      rw [GetCell_oob hoob]
  · have hoob : x < 0 ∨ y < 0 ∨ (s.width : Int) ≤ x ∨ (s.height : Int) ≤ y := by omega
    rw [SetCell_oob cell hoob]

/-! ## C1 -/

/-- C1: for every well-formed buffer, cell value and coordinate:
in range, `SetCell` then `GetCell` at the same coordinate returns a cell
`Equal` to the one set; out of range, `SetCell` leaves the buffer
completely unchanged and `GetCell` returns the default cell. -/
theorem setCell_getCell_roundtrip (s : Screen) (hwf : Wf s) (x y : Int) (c : Cell) :
    (0 ≤ x → x < (s.width : Int) → 0 ≤ y → y < (s.height : Int) →
       Cell.Equal ((s.SetCell x y c).GetCell x y) c = true) ∧
    (x < 0 ∨ y < 0 ∨ (s.width : Int) ≤ x ∨ (s.height : Int) ≤ y →
       s.SetCell x y c = s ∧ s.GetCell x y = defaultCell) := by
  constructor
  · intro hx0 hxw hy0 hyh
    rw [GetCell_SetCell_same hwf c hx0 hxw hy0 hyh]
    simp [Cell.Equal]
  · intro hoob
    exact ⟨SetCell_oob c hoob, GetCell_oob hoob⟩

theorem setCell_getCell_roundtrip_witness :
    Cell.Equal
      (((NewScreen 3 2).SetCell 1 1 (NewCell 'Q' ColorRed ColorBlue StyleBold)).GetCell 1 1)
      (NewCell 'Q' ColorRed ColorBlue StyleBold) = true ∧
    (NewScreen 3 2).SetCell 5 0 (NewCell 'Q' ColorRed ColorBlue StyleBold) = NewScreen 3 2 :=
  ⟨(setCell_getCell_roundtrip (NewScreen 3 2) (by decide) 1 1
      (NewCell 'Q' ColorRed ColorBlue StyleBold)).1 (by decide) (by decide) (by decide) (by decide),
   ((setCell_getCell_roundtrip (NewScreen 3 2) (by decide) 5 0
      (NewCell 'Q' ColorRed ColorBlue StyleBold)).2 (by decide)).1⟩

/-! ## C10 -/

lemma DrawText_dims (text : List Char) (s : Screen) (x y : Int)
    (fg bg : Color) (style : Style) :
    (s.DrawText x y text fg bg style).width = s.width ∧
    (s.DrawText x y text fg bg style).height = s.height := by
  induction text generalizing s x with
  | nil => exact ⟨rfl, rfl⟩
  | cons c cs ih =>
      have h := ih (s.SetCell x y (NewCell c fg bg style)) (x + 1)
      simp only [Screen.DrawText]
      exact ⟨h.1.trans (SetCell_width s x y _), h.2.trans (SetCell_height s x y _)⟩

lemma DrawText_wf (text : List Char) {s : Screen} (hwf : Wf s) (x y : Int)
    (fg bg : Color) (style : Style) :
    Wf (s.DrawText x y text fg bg style) := by
  induction text generalizing s x with
  | nil => exact hwf
  | cons c cs ih =>
      simp only [Screen.DrawText]
      exact ih (SetCell_wf hwf x y _) (x + 1)

lemma drawText_get_miss (text : List Char) {s : Screen} (hwf : Wf s) (x y : Int)
    (fg bg : Color) (style : Style) (a b : Int)
    (hmiss : ∀ i : Nat, i < text.length → ¬(a = x + (i : Int) ∧ b = y ∧
       0 ≤ a ∧ a < (s.width : Int) ∧ 0 ≤ b ∧ b < (s.height : Int))) :
    (s.DrawText x y text fg bg style).GetCell a b = s.GetCell a b := by
  induction text generalizing s x with
  | nil => rfl
  | cons c cs ih =>
      have hwf1 : Wf (s.SetCell x y (NewCell c fg bg style)) := SetCell_wf hwf x y _
      have hw1 : (s.SetCell x y (NewCell c fg bg style)).width = s.width :=
        SetCell_width s x y _
      have hh1 : (s.SetCell x y (NewCell c fg bg style)).height = s.height :=
        SetCell_height s x y _
      simp only [Screen.DrawText]
      rw [ih hwf1 (x + 1) ?_]
      · by_cases hxy : a = x ∧ b = y
        · have h0 := hmiss 0 (by simp)
          have hoob : x < 0 ∨ y < 0 ∨ (s.width : Int) ≤ x ∨ (s.height : Int) ≤ y := by
            simp only [Nat.cast_zero, add_zero] at h0
            omega
          rw [SetCell_oob _ hoob]
        · exact GetCell_SetCell_other hwf _ hxy
      · intro j hj
        have h := hmiss (j + 1) (by simpa using hj)
        rw [hw1, hh1]
        intro hcontra
        apply h
        push_cast at hcontra ⊢
        constructor
        · omega
        · exact hcontra.2
  -- (the remaining obligations are discharged above)

lemma drawText_get_hit (text : List Char) {s : Screen} (hwf : Wf s) (x y : Int)
    (fg bg : Color) (style : Style) (i : Nat) (hi : i < text.length)
    (hx0 : 0 ≤ x + (i : Int)) (hxw : x + (i : Int) < (s.width : Int))
    (hy0 : 0 ≤ y) (hyh : y < (s.height : Int)) :
    (s.DrawText x y text fg bg style).GetCell (x + (i : Int)) y =
      NewCell (text.getD i ' ') fg bg style := by
  induction text generalizing s x i with
  | nil => simp at hi
  | cons c cs ih =>
      have hwf1 : Wf (s.SetCell x y (NewCell c fg bg style)) := SetCell_wf hwf x y _
      have hw1 : (s.SetCell x y (NewCell c fg bg style)).width = s.width :=
        SetCell_width s x y _
      have hh1 : (s.SetCell x y (NewCell c fg bg style)).height = s.height :=
        SetCell_height s x y _
      simp only [Screen.DrawText]
      match i with
      | 0 =>
          simp only [Nat.cast_zero, add_zero] at hx0 hxw ⊢
          rw [drawText_get_miss cs hwf1 (x + 1) y fg bg style x y ?_]
          · exact GetCell_SetCell_same hwf _ hx0 hxw hy0 hyh
          · intro j hj
            intro hcontra
            have : x = x + 1 + (j : Int) := hcontra.1
            omega
      | Nat.succ j =>
          have hj : j < cs.length := by simpa using hi
          have hcast : x + ((j + 1 : Nat) : Int) = (x + 1) + (j : Int) := by
            push_cast
            ring
          rw [hcast]
          rw [ih hwf1 (x + 1) j hj (by omega) (by rw [hw1]; omega) (by rw [hh1]; omega)]
          simp

/-- C10: DrawText clips independently per character on every side: a
character lands exactly when its target coordinate `(x+i, y)` is in
range, written as `NewCell` of that character with the given attributes;
every cell not targeted in range is unchanged (so a negative x drops the
leading characters while drawing the suffix landing at columns ≥ 0, and
an out-of-range y leaves the whole buffer unchanged). -/
theorem drawText_clipping (s : Screen) (hwf : Wf s) (x y : Int) (text : List Char)
    (fg bg : Color) (style : Style) :
    ((s.DrawText x y text fg bg style).width = s.width ∧
     (s.DrawText x y text fg bg style).height = s.height) ∧
    (∀ i : Nat, i < text.length →
       0 ≤ x + (i : Int) → x + (i : Int) < (s.width : Int) →
       0 ≤ y → y < (s.height : Int) →
       (s.DrawText x y text fg bg style).GetCell (x + (i : Int)) y =
         NewCell (text.getD i ' ') fg bg style) ∧
    (∀ a b : Int,
       (∀ i : Nat, i < text.length → ¬(a = x + (i : Int) ∧ b = y ∧
          0 ≤ a ∧ a < (s.width : Int) ∧ 0 ≤ b ∧ b < (s.height : Int))) →
       (s.DrawText x y text fg bg style).GetCell a b = s.GetCell a b) :=
  ⟨DrawText_dims text s x y fg bg style,
   fun i hi hx0 hxw hy0 hyh => drawText_get_hit text hwf x y fg bg style i hi hx0 hxw hy0 hyh,
   fun a b hmiss => drawText_get_miss text hwf x y fg bg style a b hmiss⟩

theorem drawText_clipping_witness :
    ((NewScreen 4 2).DrawText (-1) 0 ['A', 'B'] ColorRed ColorDefault StyleNone).GetCell 0 0 =
      NewCell 'B' ColorRed ColorDefault StyleNone := by
  have h := (drawText_clipping (NewScreen 4 2) (by decide) (-1) 0 ['A', 'B']
    ColorRed ColorDefault StyleNone).2.1 1 (by decide) (by decide) (by decide)
    (by decide) (by decide)
  norm_num at h
  exact h

/-! ## C7 -/

lemma rowmajor_div_mod {w x : Nat} (y : Nat) (hx : x < w) :
    (y * w + x) / w = y ∧ (y * w + x) % w = x := by
  have h0 : 0 < w := by omega
  have h3 : y * w + x = x + w * y := by ring
  constructor
  · rw [h3, Nat.add_mul_div_left x y h0, Nat.div_eq_of_lt hx]
    omega
  · rw [h3, Nat.add_mul_mod_self_left, Nat.mod_eq_of_lt hx]

lemma copyRow_succ (old : List Cell) (oldW newW y m : Nat) (acc : List Cell) :
    copyRow old oldW newW y (m + 1) acc =
      (copyRow old oldW newW y m acc).set (y * newW + m)
        (old.getD (y * oldW + m) defaultCell) := by
  unfold copyRow
  rw [List.range_succ, List.foldl_append]
  rfl

lemma copyRow_length (old : List Cell) (oldW newW y minW : Nat) (acc : List Cell) :
    (copyRow old oldW newW y minW acc).length = acc.length := by
  induction minW with
  | zero => rfl
  | succ m ih => rw [copyRow_succ, List.length_set, ih]

lemma copyRow_getD (old : List Cell) (oldW newW y minW : Nat) (acc : List Cell) (j : Nat) :
    (copyRow old oldW newW y minW acc).getD j defaultCell =
      if y * newW ≤ j ∧ j < y * newW + minW ∧ j < acc.length then
        old.getD (y * oldW + (j - y * newW)) defaultCell
      else acc.getD j defaultCell := by
  induction minW with
  | zero =>
      rw [if_neg (by omega)]
      rfl
  | succ m ih =>
      rw [copyRow_succ]
      by_cases hj : j = y * newW + m
      · subst hj
        by_cases hlen : y * newW + m < acc.length
        · have hlen' : y * newW + m < (copyRow old oldW newW y m acc).length := by
            rw [copyRow_length]
            exact hlen
          rw [if_pos ⟨by omega, by omega, hlen⟩]
          have harg : y * newW + m - y * newW = m := by omega
          rw [harg]
          simp [List.getD_eq_getElem?_getD, List.getElem?_set_self', hlen']
        · have hlen' : (copyRow old oldW newW y m acc).length ≤ y * newW + m := by
            rw [copyRow_length]
            omega
          rw [List.set_eq_of_length_le hlen', ih, if_neg (by omega), if_neg (by omega)]
      · have hne : y * newW + m ≠ j := fun hcontra => hj hcontra.symm
        rw [show ((copyRow old oldW newW y m acc).set (y * newW + m)
            (old.getD (y * oldW + m) defaultCell)).getD j defaultCell =
            (copyRow old oldW newW y m acc).getD j defaultCell by
          simp [List.getD_eq_getElem?_getD, List.getElem?_set_ne hne]]
        rw [ih]
        by_cases hc : y * newW ≤ j ∧ j < y * newW + m ∧ j < acc.length
        · rw [if_pos hc, if_pos (by omega)]
        · rw [if_neg hc, if_neg (by omega)]

lemma copyRows_succ (old : List Cell) (oldW newW minW m : Nat) (acc : List Cell) :
    copyRows old oldW newW minW (m + 1) acc =
      copyRow old oldW newW m minW (copyRows old oldW newW minW m acc) := by
  unfold copyRows
  rw [List.range_succ, List.foldl_append]
  rfl

lemma copyRows_length (old : List Cell) (oldW newW minW minH : Nat) (acc : List Cell) :
    (copyRows old oldW newW minW minH acc).length = acc.length := by
  induction minH with
  | zero => rfl
  | succ m ih => rw [copyRows_succ, copyRow_length, ih]

lemma copyRows_getD (old : List Cell) (oldW newW minW minH : Nat) (acc : List Cell)
    (hmw : minW ≤ newW) (j : Nat) :
    (copyRows old oldW newW minW minH acc).getD j defaultCell =
      if j / newW < minH ∧ j % newW < minW ∧ j < acc.length then
        old.getD ((j / newW) * oldW + j % newW) defaultCell
      else acc.getD j defaultCell := by
  induction minH with
  | zero =>
      rw [if_neg (fun hcontra => absurd hcontra.1 (Nat.not_lt_zero _))]
      rfl
  | succ m ih =>
      rw [copyRows_succ, copyRow_getD, copyRows_length]
      by_cases hrow : m * newW ≤ j ∧ j < m * newW + minW ∧ j < acc.length
      · obtain ⟨h1, h2, h3⟩ := hrow
        have hrlt : j - m * newW < newW := by omega
        have hdm := rowmajor_div_mod (w := newW) m hrlt
        have hj' : m * newW + (j - m * newW) = j := by omega
        rw [hj'] at hdm
        rw [if_pos ⟨h1, h2, h3⟩, if_pos ⟨by omega, by omega, h3⟩, hdm.1, hdm.2]
      · rw [if_neg hrow, ih]
        by_cases hc : j / newW < m ∧ j % newW < minW ∧ j < acc.length
        · rw [if_pos hc, if_pos ⟨by omega, hc.2.1, hc.2.2⟩]
        · rw [if_neg hc]
          by_cases hc2 : j / newW < m + 1 ∧ j % newW < minW ∧ j < acc.length
          · exfalso
            obtain ⟨hc1, hc2', hc3⟩ := hc2
            have hdv : j / newW = m := by
              rcases Nat.lt_or_ge (j / newW) m with hlt | hge
              · exact absurd ⟨hlt, hc2', hc3⟩ hc
              · omega
            have hdm := Nat.div_add_mod j newW
            rw [hdv] at hdm
            have hcomm : newW * m = m * newW := Nat.mul_comm _ _
            exact hrow ⟨by omega, by omega, hc3⟩
          · rw [if_neg hc2]

/-- C7: `Resize(w2,h2)` with a non-positive dimension leaves the buffer
unchanged; with positive dimensions, `Size` afterwards returns
`(w2,h2)`, the overlap `[0,min(w1,w2)) × [0,min(h1,h2))` reads back the
pre-resize cells, and every coordinate inside the new bounds but outside
the overlap reads the default cell. -/
theorem resize_spec (s : Screen) (hwf : Wf s) (w2 h2 : Int) :
    (w2 ≤ 0 ∨ h2 ≤ 0 → s.Resize w2 h2 = s) ∧
    (0 < w2 → 0 < h2 →
      (((s.Resize w2 h2).Size.1 : Int) = w2 ∧ ((s.Resize w2 h2).Size.2 : Int) = h2) ∧
      (∀ x y : Int, 0 ≤ x → x < min (s.width : Int) w2 →
         0 ≤ y → y < min (s.height : Int) h2 →
         (s.Resize w2 h2).GetCell x y = s.GetCell x y) ∧
      (∀ x y : Int, 0 ≤ x → x < w2 → 0 ≤ y → y < h2 →
         ¬(x < min (s.width : Int) w2 ∧ y < min (s.height : Int) h2) →
         (s.Resize w2 h2).GetCell x y = defaultCell)) := by
  obtain ⟨hw, hh, hl⟩ := hwf
  constructor
  · intro h
    unfold Screen.Resize
    rw [if_pos h]
  · intro hw2 hh2
    have hres : s.Resize w2 h2 = ⟨w2.toNat, h2.toNat,
        copyRows s.cells s.width w2.toNat (min s.width w2.toNat) (min s.height h2.toNat)
          (List.replicate (w2.toNat * h2.toNat) defaultCell)⟩ := by
      unfold Screen.Resize
      rw [if_neg (by omega)]
    have hW : (s.Resize w2 h2).width = w2.toNat := by rw [hres]
    have hH : (s.Resize w2 h2).height = h2.toNat := by rw [hres]
    have hC : (s.Resize w2 h2).cells = copyRows s.cells s.width w2.toNat
        (min s.width w2.toNat) (min s.height h2.toNat)
        (List.replicate (w2.toNat * h2.toNat) defaultCell) := by rw [hres]
    refine ⟨?_, ?_, ?_⟩
    · unfold Screen.Size
      rw [hW, hH]
      constructor
      · omega
      · omega
    · intro x y hx0 hxm hy0 hym
      rw [lt_min_iff] at hxm hym
      rw [GetCell_inb hx0 (by rw [hW]; omega) hy0 (by rw [hH]; omega)]
      rw [hW, hC]
      have hxlt : x.toNat < w2.toNat := by omega
      have hylt : y.toNat < h2.toNat := by omega
      have hdm := rowmajor_div_mod (w := w2.toNat) y.toNat hxlt
      rw [copyRows_getD _ _ _ _ _ _ (Nat.min_le_right _ _), hdm.1, hdm.2,
        if_pos ⟨by omega, by omega, by
          rw [List.length_replicate]
          exact idx_lt_of_lt hxlt hylt⟩]
      rw [GetCell_inb hx0 (by omega) hy0 (by omega)]
    · intro x y hx0 hxw2 hy0 hyh2 hnot
      rw [GetCell_inb hx0 (by rw [hW]; omega) hy0 (by rw [hH]; omega)]
      rw [hW, hC]
      have hxlt : x.toNat < w2.toNat := by omega
      have hylt : y.toNat < h2.toNat := by omega
      have hdm := rowmajor_div_mod (w := w2.toNat) y.toNat hxlt
      have hjlen : y.toNat * w2.toNat + x.toNat < w2.toNat * h2.toNat :=
        idx_lt_of_lt hxlt hylt
      rw [copyRows_getD _ _ _ _ _ _ (Nat.min_le_right _ _), hdm.1, hdm.2]
      rw [if_neg ?_, List.getD_eq_getElem?_getD, List.getElem?_replicate]
      · simp [hjlen]
      · intro hcontra
        obtain ⟨hcy, hcx, _⟩ := hcontra
        rw [Nat.lt_min] at hcx hcy
        exact hnot ⟨lt_min_iff.mpr ⟨by omega, by omega⟩,
          lt_min_iff.mpr ⟨by omega, by omega⟩⟩

theorem resize_spec_witness :
    (NewScreen 10 5).Resize (-1) 5 = NewScreen 10 5 ∧
    (((NewScreen 2 2).SetCell 1 1 (NewCell 'Z' ColorRed ColorBlue StyleBold)).Resize 3 3).GetCell 1 1 =
      NewCell 'Z' ColorRed ColorBlue StyleBold := by
  constructor
  · exact (resize_spec (NewScreen 10 5) (by decide) (-1) 5).1 (by decide)
  · have h := ((resize_spec
      ((NewScreen 2 2).SetCell 1 1 (NewCell 'Z' ColorRed ColorBlue StyleBold))
      (by decide) 3 3).2 (by decide) (by decide)).2.1 1 1
      (by decide) (by decide) (by decide) (by decide)
    rw [h]
    decide

/-! ## Renderer lemmas -/

lemma writeStr_append (l1 l2 : List WriteOp) :
    writeStr (l1 ++ l2) = writeStr l1 ++ writeStr l2 := by
  induction l1 with
  | nil => simp [writeStr]
  | cons op rest ih => simp [writeStr, ih, String.append_assoc]

lemma tripleOf_ne_iff (c : Cell) (t : Color × Color × Goterm.Style) :
    tripleOf c ≠ t ↔ (c.Fg ≠ t.1 ∨ c.Bg ≠ t.2.1 ∨ c.Style ≠ t.2.2) := by
  obtain ⟨t1, t2, t3⟩ := t
  simp [tripleOf, Prod.mk.injEq]
  tauto

/-- The per-cell step of Show, with the pending-reset flag off (it is
initialized to false and never set), phrased through the cell's
attribute triple. -/
lemma cellOps_eq (c : Cell) (st : ShowSt) (h : st.needsReset = false) :
    cellOps c st =
      if tripleOf c ≠ (st.lastFg, st.lastBg, st.lastStyle) then
        ((WriteKind.resetAttr, "\x1b[0m") ::
          ((if c.Fg.mode ≠ ColorModeDefault then [(WriteKind.setFg, c.Fg.ansiCode true)] else []) ++
           (if c.Bg.mode ≠ ColorModeDefault then [(WriteKind.setBg, c.Bg.ansiCode false)] else []) ++
           (if c.Style ≠ StyleNone then [(WriteKind.setStyle, Style.ansiCode c.Style)] else []) ++
           [(WriteKind.writeChar, String.singleton c.Ch)]),
         ⟨c.Fg, c.Bg, c.Style, false⟩)
      else ([(WriteKind.writeChar, String.singleton c.Ch)], st) := by
  unfold cellOps
  rw [h]
  by_cases hTrip : tripleOf c ≠ (st.lastFg, st.lastBg, st.lastStyle)
  · have hcond : c.Fg ≠ st.lastFg ∨ c.Bg ≠ st.lastBg ∨ c.Style ≠ st.lastStyle ∨
        false = true := by
      rcases (tripleOf_ne_iff c _).mp hTrip with h1 | h1 | h1
      · exact Or.inl h1
      · exact Or.inr (Or.inl h1)
      · exact Or.inr (Or.inr (Or.inl h1))
    rw [if_pos hcond, if_pos hTrip]
  · have hcond : ¬(c.Fg ≠ st.lastFg ∨ c.Bg ≠ st.lastBg ∨ c.Style ≠ st.lastStyle ∨
        false = true) := by
      intro hcontra
      rcases hcontra with h1 | h1 | h1 | h1
      · exact hTrip ((tripleOf_ne_iff c _).mpr (Or.inl h1))
      · exact hTrip ((tripleOf_ne_iff c _).mpr (Or.inr (Or.inl h1)))
      · exact hTrip ((tripleOf_ne_iff c _).mpr (Or.inr (Or.inr h1)))
      · simp at h1
    rw [if_neg hcond, if_neg hTrip]

lemma writeStr_attrList (c : Cell) :
    writeStr ((WriteKind.resetAttr, "\x1b[0m") ::
      ((if c.Fg.mode ≠ ColorModeDefault then [(WriteKind.setFg, c.Fg.ansiCode true)] else []) ++
       (if c.Bg.mode ≠ ColorModeDefault then [(WriteKind.setBg, c.Bg.ansiCode false)] else []) ++
       (if c.Style ≠ StyleNone then [(WriteKind.setStyle, Style.ansiCode c.Style)] else []) ++
       [(WriteKind.writeChar, String.singleton c.Ch)])) =
      specAttr c ++ String.singleton c.Ch := by
  unfold specAttr
  split_ifs <;> simp [writeStr, writeStr_append, String.append_assoc]

lemma lastTriple_cons (c : Cell) (cs : List Cell) (t : Color × Color × Goterm.Style) :
    lastTriple (c :: cs) t = lastTriple cs (tripleOf c) := by
  unfold lastTriple
  cases cs with
  | nil => rfl
  | cons d ds =>
      rw [List.getLast?_cons_cons]
      cases hg : (d :: ds).getLast? with
      | none => simp at hg
      | some e => rfl

/-- The row walk of Show agrees with the claim-side rendering: the bytes
are `specCells` relative to the tracked triple, and afterwards the
tracked triple is that of the row's last cell. -/
lemma rowOps_spec (cs : List Cell) (st : ShowSt) (h : st.needsReset = false) :
    writeStr (rowOps cs st).1 = specCells cs (st.lastFg, st.lastBg, st.lastStyle) ∧
    (rowOps cs st).2 = ⟨(lastTriple cs (st.lastFg, st.lastBg, st.lastStyle)).1,
      (lastTriple cs (st.lastFg, st.lastBg, st.lastStyle)).2.1,
      (lastTriple cs (st.lastFg, st.lastBg, st.lastStyle)).2.2, false⟩ := by
  induction cs generalizing st with
  | nil =>
      obtain ⟨f, b, sty, nr⟩ := st
      simp only at h
      subst h
      exact ⟨rfl, rfl⟩
  | cons c cs ih =>
      simp only [rowOps]
      rw [cellOps_eq c st h]
      by_cases hd : tripleOf c ≠ (st.lastFg, st.lastBg, st.lastStyle)
      · rw [if_pos hd]
        have hih := ih (⟨c.Fg, c.Bg, c.Style, false⟩ : ShowSt) rfl
        constructor
        · rw [writeStr_append, writeStr_attrList, hih.1]
          simp only [specCells]
          rw [if_pos hd]
          simp [tripleOf, String.append_assoc]
        · rw [hih.2, lastTriple_cons]
          simp [tripleOf]
      · rw [if_neg hd]
        push_neg at hd
        have hih := ih st h
        constructor
        · rw [writeStr_append, hih.1]
          simp only [specCells]
          rw [if_neg (fun hh => hh hd)]
          rw [show tripleOf c = (st.lastFg, st.lastBg, st.lastStyle) from hd]
          simp [writeStr, String.append_assoc]
        · rw [hih.2, lastTriple_cons]
          rw [show tripleOf c = (st.lastFg, st.lastBg, st.lastStyle) from hd]

/-- The full row-by-row walk of Show agrees with the claim-side
rendering, threading the previous cell's triple across rows. -/
lemma rowsOps_spec (rs : List (List Cell)) (st : ShowSt) (h : st.needsReset = false) :
    writeStr (rowsOps rs st).1 = specRowsStr rs (st.lastFg, st.lastBg, st.lastStyle) := by
  induction rs generalizing st with
  | nil => rfl
  | cons r rs ih =>
      cases rs with
      | nil =>
          simp only [rowsOps, specRowsStr]
          exact (rowOps_spec r st h).1
      | cons r2 rest =>
          simp only [rowsOps, specRowsStr]
          have hp := rowOps_spec r st h
          rw [writeStr_append, writeStr, hp.1]
          have hq := ih (rowOps r st).2 (by rw [hp.2])
          rw [hq]
          rw [hp.2]
          simp [String.append_assoc]

lemma showString_eq_spec (s : Screen) : showString s = showSpecString s := by
  unfold showString showOps showSpecString
  rw [writeStr, writeStr_append]
  have h := rowsOps_spec (screenRows s) initShowSt rfl
  rw [h]
  simp [writeStr, initShowSt, String.append_assoc]

lemma runWrites_ok_out (ops : List WriteOp) (fuel : Nat)
    (h : (runWrites ops fuel).1 = Except.ok ()) :
    (runWrites ops fuel).2 = writeStr ops := by
  induction ops generalizing fuel with
  | nil => rfl
  | cons op rest ih =>
      cases fuel with
      | zero => exact absurd h (by simp [runWrites])
      | succ f =>
          simp only [runWrites] at h ⊢
          rw [writeStr, ih f h]

/-! ## C2 -/

/-- C2: a successful Show emits exactly the cursor-to-origin sequence;
then the cells in row-major order where a cell whose (fg,bg,style)
triple equals the preceding one (the first cell compared against the
all-default triple) gets no attribute code, and a differing one gets an
attribute reset followed by the fg code when fg is not default, the bg
code when bg is not default, and the style code when the style is not
none, the character always being emitted; a CR+LF after each row except
the last; and one final attribute reset. -/
theorem show_success_output (s : Screen) (fuel : Nat)
    (hok : (s.Show fuel).1 = Except.ok ()) :
    (s.Show fuel).2.1 = showSpecString s ∧ showString s = showSpecString s := by
  have h1 : (s.Show fuel).2.1 = writeStr (showOps s) :=
    runWrites_ok_out (showOps s) fuel hok
  exact ⟨h1.trans (showString_eq_spec s), showString_eq_spec s⟩

theorem show_success_output_witness :
    ((NewScreen 2 2).Show 10).2.1 = showSpecString (NewScreen 2 2) :=
  (show_success_output (NewScreen 2 2) 10 rfl).1

/-! ## C3 -/

lemma screenRows_head (s : Screen) (hh : 0 < s.height) :
    ∃ rest, screenRows s =
      ((List.range s.width).map (fun x => cellAt s x 0)) :: rest := by
  unfold screenRows
  obtain ⟨m, hm⟩ : ∃ m, s.height = m + 1 := ⟨s.height - 1, by omega⟩
  rw [hm, List.range_succ_eq_map, List.map_cons]
  exact ⟨_, rfl⟩

lemma row0_head (s : Screen) (hw : 0 < s.width) :
    ∃ tail, (List.range s.width).map (fun x => cellAt s x 0) =
      cellAt s 0 0 :: tail := by
  obtain ⟨m, hm⟩ : ∃ m, s.width = m + 1 := ⟨s.width - 1, by omega⟩
  rw [hm, List.range_succ_eq_map, List.map_cons]
  exact ⟨_, rfl⟩

lemma rowsOps_fst_cons (r : List Cell) (rs : List (List Cell)) (st : ShowSt) :
    ∃ q, (rowsOps (r :: rs) st).1 = (rowOps r st).1 ++ q := by
  cases rs with
  | nil => exact ⟨[], (List.append_nil _).symm⟩
  | cons r2 rest => exact ⟨_, rfl⟩

/-- C3 (amended): Show initializes the last-emitted attribute triple to
the all-default triple (Go zero values) with no pending reset, so the
write issued immediately after the cursor-home is an attribute reset
exactly when the first cell's triple differs from
(default fg, default bg, no style) — and is already the first cell's
character when the first cell is fully default. -/
theorem show_first_cell_attr (s : Screen) (hw : 0 < s.width) (hh : 0 < s.height) :
    ((showOps s).get? 1).map Prod.fst =
      some (if tripleOf (cellAt s 0 0) = (ColorDefault, ColorDefault, StyleNone)
            then WriteKind.writeChar else WriteKind.resetAttr) := by
  obtain ⟨rest, hrows⟩ := screenRows_head s hh
  obtain ⟨tail, hrow0⟩ := row0_head s hw
  unfold showOps
  rw [hrows]
  obtain ⟨q, hq⟩ := rowsOps_fst_cons
    ((List.range s.width).map (fun x => cellAt s x 0)) rest initShowSt
  rw [hq, hrow0]
  rw [show (rowOps (cellAt s 0 0 :: tail) initShowSt).1 =
      (cellOps (cellAt s 0 0) initShowSt).1 ++
        (rowOps tail (cellOps (cellAt s 0 0) initShowSt).2).1 from rfl]
  rw [cellOps_eq (cellAt s 0 0) initShowSt rfl]
  by_cases hd : tripleOf (cellAt s 0 0) = (ColorDefault, ColorDefault, StyleNone)
  · rw [if_neg (show ¬tripleOf (cellAt s 0 0) ≠
        (initShowSt.lastFg, initShowSt.lastBg, initShowSt.lastStyle) from
        fun hcon => hcon hd), if_pos hd]
    simp
  · rw [if_pos (show tripleOf (cellAt s 0 0) ≠
        (initShowSt.lastFg, initShowSt.lastBg, initShowSt.lastStyle) from hd),
      if_neg hd]
    simp

theorem show_first_cell_attr_witness :
    ((showOps (NewScreen 1 1)).get? 1).map Prod.fst =
      some (if tripleOf (cellAt (NewScreen 1 1) 0 0) =
              (ColorDefault, ColorDefault, StyleNone)
            then WriteKind.writeChar else WriteKind.resetAttr) :=
  show_first_cell_attr (NewScreen 1 1) (by decide) (by decide)

/-- C3 counterexample: on a 1×1 buffer whose single cell is fully
default, the byte stream of Show is cursor-home, the space character,
and the final reset — its first seven characters are not cursor-home
followed by an attribute reset, so no attribute emission precedes the
first cell's character on this call. -/
theorem show_no_initial_reset_counterexample :
    showString (NewScreen 1 1) = "\x1b[H \x1b[0m" ∧
    (showString (NewScreen 1 1)).data.take 7 ≠ ("\x1b[H\x1b[0m" : String).data := by
  constructor
  · rfl
  · decide

/-! ## C8 -/

lemma runWrites_error (ops : List WriteOp) (fuel : Nat) (h : fuel < ops.length) :
    (runWrites ops fuel).1 = Except.error (ops.get ⟨fuel, h⟩).1 ∧
    (runWrites ops fuel).2 = writeStr (ops.take fuel) := by
  induction ops generalizing fuel with
  | nil => simp at h
  | cons op rest ih =>
      cases fuel with
      | zero => exact ⟨rfl, rfl⟩
      | succ f =>
          have hf : f < rest.length := by simpa using h
          have hih := ih f hf
          constructor
          · simp only [runWrites]
            rw [hih.1]
            rfl
          · simp only [runWrites]
            rw [hih.2]
            rfl

/-- C8 (amended): Show never mutates the buffer, and on an output
failure the render walk aborts at the first failing write: the returned
error identifies that write's sub-operation (cursor move, one of the
attribute writes, the character write, or the row-separator write), and
the bytes that reached the sink are exactly those of the writes before
it. -/
theorem show_failure_behavior (s : Screen) (fuel : Nat) :
    (s.Show fuel).2.2 = s ∧
    ∀ h : fuel < (showOps s).length,
      (s.Show fuel).1 = Except.error ((showOps s).get ⟨fuel, h⟩).1 ∧
      (s.Show fuel).2.1 = writeStr ((showOps s).take fuel) :=
  ⟨rfl, fun h => runWrites_error (showOps s) fuel h⟩

theorem show_failure_behavior_witness :
    ((NewScreen 1 2).Show 2).1 =
      Except.error ((showOps (NewScreen 1 2)).get ⟨2, by decide⟩).1 :=
  ((show_failure_behavior (NewScreen 1 2) 2).2 (by decide)).1

/-- C8 counterexample: on a 1×2 buffer with the sink failing at the
third write, Show fails on the row-separator (`"\r\n"`) write — a
failing sub-operation that is neither a cursor move, nor an attribute
write, nor a character write, so the claim's enumeration of failing
sub-operations is incomplete. -/
theorem show_error_kinds_counterexample :
    ((NewScreen 1 2).Show 2).1 = Except.error WriteKind.writeNewline ∧
    (WriteKind.writeNewline ≠ WriteKind.cursorMove ∧
     WriteKind.writeNewline ≠ WriteKind.resetAttr ∧
     WriteKind.writeNewline ≠ WriteKind.setFg ∧
     WriteKind.writeNewline ≠ WriteKind.setBg ∧
     WriteKind.writeNewline ≠ WriteKind.setStyle ∧
     WriteKind.writeNewline ≠ WriteKind.finalReset ∧
     WriteKind.writeNewline ≠ WriteKind.writeChar) :=
  ⟨rfl, by decide⟩

end Goterm
